import Mathlib

/-!
Verification of the aio-storage folder/file metadata engine.

The definitions below are a shallow embedding of the repository's
TypeScript: the folder controller (rename / move / delete / restore with
materialized-path cascades), the upload controller and its quota gate, the
worker upload processor, the quota service, and the queue service with its
in-memory degraded mode.  Strings are modelled by Lean `String`; MongoDB
documents by Lean structures; collections by lists; `findOne` by
`List.find?`; `updateMany` by `List.map` guarded on the query predicate;
thrown `AppError`s by `Except`.
-/

namespace AioStorage

/-! ## JavaScript string primitives -/

/-- Matching of a single regex pattern character against a subject
character: `.` is a wildcard, every other character matches literally.
This models the JS regexes the code builds (`new RegExp("^" + p + "/")`
and `new RegExp("^" + p)`) for pattern strings whose only regex
metacharacter is `.`, which covers every path used in this development. -/
def regexCharMatches (pc sc : Char) : Bool :=
  pc == '.' || pc == sc

/-- Does the pattern match at the very start of the subject?  Models an
anchored `^pattern` regex test (the pattern may end before the subject
does, since the regexes in the source are not `$`-anchored). -/
def patMatchesAt : List Char → List Char → Bool
  | [], _ => true
  | _ :: _, [] => false
  | pc :: ps, sc :: ss => regexCharMatches pc sc && patMatchesAt ps ss

/-- Models `new RegExp("^" + pat).test s` (equivalently a MongoDB query
`{field: new RegExp("^" + pat)}` on a field value `s`) for patterns whose
only metacharacter is `.`. -/
def caretTest (pat s : String) : Bool :=
  patMatchesAt pat.data s.data

/-- Replace the first occurrence of `pat` in `s` (searching left to
right), as a list-of-characters worker. -/
def replaceFirstAux (pat repl : List Char) : List Char → List Char
  | [] => if pat.isPrefixOf ([] : List Char) then repl else []
  | c :: cs =>
    if pat.isPrefixOf (c :: cs) then repl ++ (c :: cs).drop pat.length
    else c :: replaceFirstAux pat repl cs

/-- Models JS `s.replace(pat, repl)` with a *string* first argument:
only the first occurrence of `pat` is replaced; if `pat` does not occur,
`s` is returned unchanged. -/
def jsReplace (s pat repl : String) : String :=
  String.mk (replaceFirstAux pat.data repl.data s.data)

/-- Models JS `s.startsWith pre`. -/
def jsStartsWith (s pre : String) : Bool :=
  pre.data.isPrefixOf s.data

/-! ## Data model (Mongoose schemas, shallowly embedded) -/

/-- A folder document (`FolderSchema`): ids are abstracted to `Nat`,
timestamps to `Nat`; `deletedAt = none` means the folder is live. -/
structure FolderDoc where
  id : Nat
  userId : Nat
  parentId : Option Nat
  name : String
  path : String
  deletedAt : Option Nat
  deriving Repr, DecidableEq

/-- A file document (`FileSchema`). -/
structure FileDoc where
  id : Nat
  userId : Nat
  folderId : Option Nat
  name : String
  size : Int
  mimeType : String
  storageKey : String
  version : Nat
  deletedAt : Option Nat
  deriving Repr, DecidableEq

/-- A user document (`UserSchema`): only the quota ledger fields matter
here.  `storageUsed` is an `Int` because the schema-level `min: 0` is a
save-time validator that `findByIdAndUpdate`/`$inc` updates bypass, so
the stored value is an unconstrained number. -/
structure UserDoc where
  id : Nat
  storageUsed : Int
  storageQuota : Int
  deriving Repr, DecidableEq

/-- The closed audit action enum of `AuditLogSchema`. -/
inductive AuditAction where
  | upload | download | delete | share | login | register | update
  deriving Repr, DecidableEq

/-- An audit log entry (free-form `details` omitted: no claim reads it). -/
structure AuditEntry where
  userId : Nat
  action : AuditAction
  resourceId : Option Nat
  deriving Repr, DecidableEq

/-- A share grant (`ShareSchema`), file shares only (folder shares are
irrelevant to the claims).  `expiresAt = none` means no expiry. -/
structure ShareDoc where
  resourceId : Nat
  sharedWithId : Nat
  expiresAt : Option Nat
  deriving Repr, DecidableEq

/-- An upload job payload (`IUploadJob` in `packages/database/src/index.ts`). -/
structure UploadJob where
  fileId : Nat
  userId : Nat
  fileName : String
  filePath : String
  mimeType : String
  size : Int
  deriving Repr, DecidableEq

/-- The metadata store: one document collection per entity, plus the
sequence of job payloads handed to `queueService.publishToQueue` (all
calls in the embedded code target the `file.upload` queue). -/
structure Store where
  users : List UserDoc
  folders : List FolderDoc
  files : List FileDoc
  shares : List ShareDoc
  audit : List AuditEntry
  jobs : List UploadJob
  deriving Repr, DecidableEq

/-- An `AppError(status, message)` thrown by a controller. -/
structure AppError where
  status : Nat
  message : String
  deriving Repr, DecidableEq

/-! ## Queue service (`apps/api/src/services/queue.ts`) -/

/-- The mutable fields of `QueueService` that `publishToQueue`,
`isAvailable`, `connect` and the connection event handlers touch.
`broker` records messages published durably via the channel;
`inMemory` is the `inMemoryQueue : Map<string, any[]>` fallback buffer,
as an association list from queue name to buffered payloads. -/
structure QueueState (α : Type) where
  isEnabled : Bool
  hasChannel : Bool
  broker : List (String × α)
  inMemory : List (String × List α)

/-- Models `this.inMemoryQueue.get(queue)` followed by the code's
`|| []` default (`getInMemoryQueue`). -/
def getInMemory {α : Type} (m : List (String × List α)) (queue : String) : List α :=
  match m.find? (fun p => p.1 == queue) with
  | some p => p.2
  | none => []

/-- Models the `Map.set`ting of a queue's buffer: overwrite the entry if
the key is present, otherwise append a new entry. -/
def setInMemory {α : Type} (m : List (String × List α)) (queue : String)
    (v : List α) : List (String × List α) :=
  if (m.find? (fun p => p.1 == queue)).isSome then
    m.map (fun p => if p.1 == queue then (p.1, v) else p)
  else
    m ++ [(queue, v)]

/-- Result of `publishToQueue`: the updated service state plus whether
the warning-level log line of the degraded branch was emitted. -/
structure PublishResult (α : Type) where
  state : QueueState α
  warned : Bool

/-- `QueueService.publishToQueue`: if the broker is enabled and a channel
exists, send durably; otherwise append the payload to the in-memory
buffer for that queue and emit a warning.  The function is total: the
degraded branch never throws, so the caller always sees success. -/
def publishToQueue {α : Type} (st : QueueState α) (queue : String) (data : α) :
    PublishResult α :=
  if st.isEnabled && st.hasChannel then
    { state := { st with broker := st.broker ++ [(queue, data)] }, warned := false }
  else
    { state := { st with
        inMemory := setInMemory st.inMemory queue (getInMemory st.inMemory queue ++ [data]) },
      warned := true }

/-- `QueueService.isAvailable`. -/
def isAvailable {α : Type} (st : QueueState α) : Bool :=
  st.isEnabled

/-- `QueueService.connect` when `config.features.enableRabbitMQ` is
false: the broker is disabled by configuration (`isEnabled = false`). -/
def connectWhenDisabledByConfig {α : Type} (st : QueueState α) : QueueState α :=
  { st with isEnabled := false }

/-- The `connection.on('close')` / `on('error')` handlers: a runtime
disconnect flips `isEnabled` to false (the channel object remains). -/
def onConnectionDown {α : Type} (st : QueueState α) : QueueState α :=
  { st with isEnabled := false }

/-! ## Folder controller (`FolderController`, src/unnamed/part_006) -/

/-- Does the file's `folderId` fall in `ids` (the `folderId: {$in: ids}`
query clause; a null `folderId` never matches `$in`)? -/
def folderIdIn (fl : FileDoc) (ids : List Nat) : Bool :=
  match fl.folderId with
  | some fid => ids.contains fid
  | none => false

/-- The per-document write of a mongoose `document.save()`: replace the
stored document carrying the saved document's id. -/
def replaceById (f : FolderDoc) : FolderDoc → FolderDoc :=
  fun g => if g.id == f.id then f else g

/-- Mongoose `document.save()` after mutating a fetched document:
write the document back over every stored document with the same id. -/
def saveFolder (folders : List FolderDoc) (f : FolderDoc) : List FolderDoc :=
  folders.map (replaceById f)

/-- The per-folder update of `deleteDescendants`' subfolder
`updateMany`: soft-delete the user's live folders under `P`'s subtree
(`path` matching `^P/`). -/
def delMark (uid : Nat) (P : String) (t : Nat) : FolderDoc → FolderDoc :=
  fun f =>
    if f.userId == uid && caretTest (P ++ "/") f.path && f.deletedAt == none then
      { f with deletedAt := some t }
    else f

/-- The folder query `{userId, path: new RegExp("^" + P)}` — the RAW
prefix match (no trailing slash) `deleteDescendants` keys its file
cascade on. -/
def rawQuery (uid : Nat) (P : String) : FolderDoc → Bool :=
  fun g => g.userId == uid && caretTest P g.path

/-- The per-file update of `deleteDescendants`' file `updateMany`:
soft-delete the user's live files whose `folderId` is among `ids`. -/
def delFileMark (uid : Nat) (ids : List Nat) (t : Nat) : FileDoc → FileDoc :=
  fun fl =>
    if fl.userId == uid && folderIdIn fl ids && fl.deletedAt == none then
      { fl with deletedAt := some t }
    else fl

/-- The per-folder update of `restoreDescendants`' subfolder
`updateMany`: clear `deletedAt` on the user's folders under `P`'s
subtree — note there is no `deletedAt` filter. -/
def resMark (uid : Nat) (P : String) : FolderDoc → FolderDoc :=
  fun f =>
    if f.userId == uid && caretTest (P ++ "/") f.path then
      { f with deletedAt := none }
    else f

/-- The folder query `{userId, path: ^P, deletedAt: null}` —
`restoreDescendants`' raw-prefix id collection, restricted to live
folders. -/
def liveRawQuery (uid : Nat) (P : String) : FolderDoc → Bool :=
  fun g => g.userId == uid && caretTest P g.path && g.deletedAt == none

/-- The per-file update of `restoreDescendants`' file `updateMany`:
clear `deletedAt` on the user's files whose `folderId` is among `ids`
(no `deletedAt` filter). -/
def resFileMark (uid : Nat) (ids : List Nat) : FileDoc → FileDoc :=
  fun fl =>
    if fl.userId == uid && folderIdIn fl ids then
      { fl with deletedAt := none }
    else fl

/-- `FolderController.updateDescendantPaths(folderId, oldPath, newPath)`.
Finds all live folders matching `{path: new RegExp("^" + oldPath + "/")}`
— with NO `userId` filter, exactly as in the source — and rewrites each
matching folder's path with JS `path.replace(oldPath, newPath)` (first
occurrence only).  The TS `folderId` parameter is unused in the body and
is omitted. -/
def updateDescendantPaths (folders : List FolderDoc) (oldPath newPath : String) :
    List FolderDoc :=
  folders.map (fun f =>
    if caretTest (oldPath ++ "/") f.path && f.deletedAt == none then
      { f with path := jsReplace f.path oldPath newPath }
    else f)

/-- `FolderController.updateFolder` (rename).  Steps of the source:
find the live owned folder (else 404); duplicate-name check among live
siblings excluding self (else 409); recompute own path from the parent
fetched by bare `findById` (a missing parent would be a TS null
dereference, modelled as a 500); save; `updateDescendantPaths`; append
the `update` audit entry. -/
def updateFolder (s : Store) (userId folderId : Nat) (name : String) :
    Except AppError Store :=
  match s.folders.find? (fun f =>
      f.id == folderId && f.userId == userId && f.deletedAt == none) with
  | none => .error ⟨404, "Folder not found"⟩
  | some folder =>
    match s.folders.find? (fun f =>
        f.userId == userId && f.parentId == folder.parentId && f.name == name &&
        f.id != folderId && f.deletedAt == none) with
    | some _ => .error ⟨409, "Folder with this name already exists"⟩
    | none =>
      let oldPath := folder.path
      let newPathE : Except AppError String :=
        match folder.parentId with
        | some pid =>
          match s.folders.find? (fun f => f.id == pid) with
          | none => .error ⟨500, "TypeError: cannot read path of null parent"⟩
          | some parent => .ok (parent.path ++ "/" ++ name)
        | none => .ok ("/" ++ name)
      match newPathE with
      | .error e => .error e
      | .ok newPath =>
        let folders1 := saveFolder s.folders { folder with name := name, path := newPath }
        let folders2 := updateDescendantPaths folders1 oldPath newPath
        .ok { s with folders := folders2,
                     audit := s.audit ++ [⟨userId, .update, some folderId⟩] }

/-- `FolderController.isDescendant(targetPath, sourcePath)`:
`targetPath.startsWith(sourcePath + '/') || targetPath === sourcePath`. -/
def isDescendant (targetPath sourcePath : String) : Bool :=
  jsStartsWith targetPath (sourcePath ++ "/") || targetPath == sourcePath

/-- `FolderController.moveFolder`.  Steps of the source: find the live
owned folder (404); if a target parent is given, find it live and owned
(404) and reject with 400 when `isDescendant(targetParent.path,
folder.path)`; duplicate-name check at the destination (409); recompute
the path from the target parent fetched again by bare `findById`;
save; `updateDescendantPaths`. -/
def moveFolder (s : Store) (userId folderId : Nat) (targetParentId : Option Nat) :
    Except AppError Store :=
  match s.folders.find? (fun f =>
      f.id == folderId && f.userId == userId && f.deletedAt == none) with
  | none => .error ⟨404, "Folder not found"⟩
  | some folder =>
    let guardE : Except AppError Unit :=
      match targetParentId with
      | some tid =>
        match s.folders.find? (fun f =>
            f.id == tid && f.userId == userId && f.deletedAt == none) with
        | none => .error ⟨404, "Target folder not found"⟩
        | some targetParent =>
          if isDescendant targetParent.path folder.path then
            .error ⟨400, "Cannot move folder into itself or its descendants"⟩
          else .ok ()
      | none => .ok ()
    match guardE with
    | .error e => .error e
    | .ok _ =>
      match s.folders.find? (fun f =>
          f.userId == userId && f.parentId == targetParentId && f.name == folder.name &&
          f.id != folderId && f.deletedAt == none) with
      | some _ => .error ⟨409, "Folder with this name already exists in target location"⟩
      | none =>
        let oldPath := folder.path
        let newPathE : Except AppError String :=
          match targetParentId with
          | some tid =>
            match s.folders.find? (fun f => f.id == tid) with
            | none => .error ⟨500, "TypeError: cannot read path of null parent"⟩
            | some parent => .ok (parent.path ++ "/" ++ folder.name)
          | none => .ok ("/" ++ folder.name)
        match newPathE with
        | .error e => .error e
        | .ok newPath =>
          let folders1 := saveFolder s.folders
            { folder with parentId := targetParentId, path := newPath }
          let folders2 := updateDescendantPaths folders1 oldPath newPath
          .ok { s with folders := folders2 }

/-- `FolderController.deleteDescendants(folderPath, userId, deletedAt)`.
Subfolders: `updateMany` on `{userId, path: ^folderPath/, deletedAt:
null}`.  Files: collect ids of the user's folders matching the RAW
regex `^folderPath` — note: no trailing `/`, so a sibling such as
`/AB` matches when deleting `/A` — then `updateMany` the live files
whose `folderId` is among those ids. -/
def deleteDescendants (s : Store) (folderPath : String) (userId deletedAt : Nat) :
    Store :=
  let folders1 := s.folders.map (delMark userId folderPath deletedAt)
  let folderIds := (folders1.filter (rawQuery userId folderPath)).map FolderDoc.id
  let files1 := s.files.map (delFileMark userId folderIds deletedAt)
  { s with folders := folders1, files := files1 }

/-- `FolderController.deleteFolder`: find the live owned folder (404),
set its `deletedAt`, save, cascade via `deleteDescendants`, and append
the `delete` audit entry. -/
def deleteFolder (s : Store) (userId folderId : Nat) (now : Nat) :
    Except AppError Store :=
  match s.folders.find? (fun f =>
      f.id == folderId && f.userId == userId && f.deletedAt == none) with
  | none => .error ⟨404, "Folder not found"⟩
  | some folder =>
    let s1 := { s with folders := saveFolder s.folders { folder with deletedAt := some now } }
    let s2 := deleteDescendants s1 folder.path userId now
    .ok { s2 with audit := s2.audit ++ [⟨userId, .delete, some folderId⟩] }

/-- Path of the folder with the given id ("" when absent).  The helper
`getParentPath` is called by `restoreFolder` but not defined in the
repository sources; modelled from the spec: the parent folder's
materialized `path`. -/
def getParentPath (folders : List FolderDoc) (parentId : Nat) : String :=
  match folders.find? (fun f => f.id == parentId) with
  | some f => f.path
  | none => ""

/-- Step 2 of `restoreFolder`: if the folder's parent no longer exists
live, re-parent the folder to root and recompute its path. -/
def restoreParentCheck (folders : List FolderDoc) (folder0 : FolderDoc) : FolderDoc :=
  match folder0.parentId with
  | some pid =>
    match folders.find? (fun f => f.id == pid && f.deletedAt == none) with
    | none => { folder0 with parentId := none, path := "/" ++ folder0.name }
    | some _ => folder0
  | none => folder0

/-- Step 3 of `restoreFolder`: on a live name conflict at the restore
destination, append " (restored)" to the name and recompute the path. -/
def restoreConflictRename (folders : List FolderDoc) (userId folderId : Nat)
    (folder1 : FolderDoc) : FolderDoc :=
  match folders.find? (fun f =>
      f.userId == userId && f.parentId == folder1.parentId && f.name == folder1.name &&
      f.id != folderId && f.deletedAt == none) with
  | some _ =>
    let newName := folder1.name ++ " (restored)"
    { folder1 with
      name := newName,
      path := (match folder1.parentId with
               | some pid => getParentPath folders pid ++ "/" ++ newName
               | none => "/" ++ newName) }
  | none => folder1

/-- `FolderController.restoreDescendants(folderPath, userId)`.
Subfolders: `updateMany` on `{userId, path: ^folderPath/}` — with no
`deletedAt` filter, so folders deleted before the original cascade are
restored too.  Files: collect ids of the user's LIVE folders matching
the raw regex `^folderPath`, then clear `deletedAt` on every file of
the user whose `folderId` is among those ids. -/
def restoreDescendants (s : Store) (folderPath : String) (userId : Nat) : Store :=
  let folders1 := s.folders.map (resMark userId folderPath)
  let folderIds := (folders1.filter (liveRawQuery userId folderPath)).map FolderDoc.id
  let files1 := s.files.map (resFileMark userId folderIds)
  { s with folders := folders1, files := files1 }

/-- `FolderController.restoreFolder`: find the owned folder in the trash
(404); if its parent no longer exists live, re-parent to root; on a
live name conflict append " (restored)" and recompute the path; clear
`deletedAt`; save; cascade via `restoreDescendants`. -/
def restoreFolder (s : Store) (userId folderId : Nat) : Except AppError Store :=
  match s.folders.find? (fun f =>
      f.id == folderId && f.userId == userId && f.deletedAt != none) with
  | none => .error ⟨404, "Folder not found in trash"⟩
  | some folder0 =>
    let folder1 := restoreParentCheck s.folders folder0
    let folder2 := restoreConflictRename s.folders userId folderId folder1
    let folder3 := { folder2 with deletedAt := none }
    let s1 := { s with folders := saveFolder s.folders folder3 }
    .ok (restoreDescendants s1 folder3.path userId)

/-! ## File controller, quota service and upload processor -/

/-- `MAX_FILE_SIZE` (104857600 = 100 MiB, from the configuration default). -/
def MAX_FILE_SIZE : Int := 104857600

/-- JS `a || b` on an optional string: `none` and the empty string are
falsy and fall back to `b`. -/
def jsOrString (a : Option String) (b : String) : String :=
  match a with
  | some x => if x == "" then b else x
  | none => b

/-- The multipart file object produced by the upload middleware: the
fields `FileController.upload` reads. -/
structure MultipartFile where
  size : Int
  originalname : String
  mimetype : String
  deriving Repr, DecidableEq

/-- `FileController.upload` (docs/development/phase-2/file-management.md).
Steps of the source: reject a missing file (400); reject `size >
MAX_FILE_SIZE` (400); load the user (a missing user is a TS null
dereference, modelled as 500); reject when `storageUsed + size >
storageQuota` with "Storage quota exceeded" — BEFORE any mutation;
otherwise create the File row (version 1) and publish the upload job.
Storage-key generation and the filesystem move are external
collaborators: the generated key is passed in as `storageKey`, the new
document id as `newFileId`. -/
def upload (s : Store) (userId : Nat) (file : Option MultipartFile)
    (name : Option String) (folderId : Option Nat)
    (newFileId : Nat) (storageKey : String) :
    Except AppError (Store × FileDoc) :=
  match file with
  | none => .error ⟨400, "No file provided"⟩
  | some f =>
    if f.size > MAX_FILE_SIZE then .error ⟨400, "File too large"⟩
    else
      match s.users.find? (fun u => u.id == userId) with
      | none => .error ⟨500, "TypeError: cannot read storageUsed of null user"⟩
      | some user =>
        if user.storageUsed + f.size > user.storageQuota then
          .error ⟨400, "Storage quota exceeded"⟩
        else
          let fileDoc : FileDoc :=
            { id := newFileId, userId := userId, folderId := folderId,
              name := jsOrString name f.originalname, size := f.size,
              mimeType := f.mimetype, storageKey := storageKey,
              version := 1, deletedAt := none }
          let job : UploadJob :=
            { fileId := newFileId, userId := userId, fileName := fileDoc.name,
              filePath := storageKey, mimeType := fileDoc.mimeType, size := fileDoc.size }
          .ok ({ s with
                 files := s.files ++ [fileDoc],
                 jobs := s.jobs ++ [job] }, fileDoc)

/-- Mongoose `User.findByIdAndUpdate(userId, {$inc: {storageUsed:
delta}})`: an unconditional atomic increment on the matching user;
no update validators run, so the schema's `min: 0` is not enforced. -/
def incStorageUsed (users : List UserDoc) (userId : Nat) (delta : Int) :
    List UserDoc :=
  users.map (fun u =>
    if u.id == userId then { u with storageUsed := u.storageUsed + delta } else u)

/-- `QuotaService.updateUsage(userId, delta)`: the `$inc` above, with no
floor and no negativity check. -/
def updateUsage (s : Store) (userId : Nat) (delta : Int) : Store :=
  { s with users := incStorageUsed s.users userId delta }

/-- `QuotaService.checkQuota(userId, requiredSize)` (missing user
modelled as 500 like every TS null dereference). -/
def checkQuota (s : Store) (userId : Nat) (requiredSize : Int) :
    Except AppError Bool :=
  match s.users.find? (fun u => u.id == userId) with
  | none => .error ⟨500, "TypeError: cannot read storageUsed of null user"⟩
  | some user => .ok (user.storageUsed + requiredSize ≤ user.storageQuota)

/-- `UploadProcessor.process` (apps/worker/src/processors/upload.processor.ts).
Steps of the source: `File.findById(job.fileId)` and throw a plain
`Error` when absent; then unconditionally `$inc` the owner's
`storageUsed` by `job.size`; then append the `upload` audit record.
There is no check whether the job was already processed. -/
def uploadProcess (s : Store) (job : UploadJob) : Except String Store :=
  match s.files.find? (fun f => f.id == job.fileId) with
  | none => .error ("File not found: " ++ toString job.fileId)
  | some _ =>
    .ok { s with
          users := incStorageUsed s.users job.userId job.size,
          audit := s.audit ++ [⟨job.userId, .upload, some job.fileId⟩] }

/-- Is the share expired at instant `now`?  A share with no `expiresAt`
never expires. -/
def shareExpired (sh : ShareDoc) (now : Nat) : Bool :=
  match sh.expiresAt with
  | some t => t ≤ now
  | none => false

/-- Modelled from the spec: `FileController.checkAccess(userId, fileId)`
is called by `getDownloadUrl` but its body is absent from the
repository sources.  Per the spec it "verifies ownership or a valid
(non-expired) Share with at least read permission"; every permission
level grants at least read, so the permission field is immaterial. -/
def checkAccess (s : Store) (userId fileId : Nat) (now : Nat) : Bool :=
  (match s.files.find? (fun f => f.id == fileId) with
   | some f => f.userId == userId
   | none => false) ||
  (s.shares.any (fun sh =>
    sh.resourceId == fileId && sh.sharedWithId == userId && !shareExpired sh now))

/-- `FileController.getDownloadUrl` (docs/development/phase-2/file-management.md).
Steps of the source: `File.findById`; throw 404 "File not found" when
the file is absent or soft-deleted; throw 403 "Access denied" when
`checkAccess` fails; otherwise generate the signed URL (an external
collaborator, represented by the storage key) and append the `download`
audit record. -/
def getDownloadUrl (s : Store) (userId fileId : Nat) (now : Nat) :
    Except AppError (Store × String) :=
  match s.files.find? (fun f => f.id == fileId) with
  | none => .error ⟨404, "File not found"⟩
  | some file =>
    if file.deletedAt != none then .error ⟨404, "File not found"⟩
    else if !checkAccess s userId fileId now then .error ⟨403, "Access denied"⟩
    else
      .ok ({ s with audit := s.audit ++ [⟨userId, .download, some fileId⟩] },
           file.storageKey)

/-! ## Specification-side definitions -/

/-- `computePath(name, parentPath)` of the spec's Path Resolver (also the
inline recompute in `updateFolder`/`moveFolder`):
`parentPath ? parentPath + "/" + name : "/" + name`. -/
def computePath (name : String) (parentPath : Option String) : String :=
  match parentPath with
  | some pp => pp ++ "/" ++ name
  | none => "/" ++ name

/-- Ids of the folders that an operation taking `before` to `after`
newly soft-deleted: deleted in `after` while live (same id) in `before`. -/
def newlyDeletedFolderIds (before after : List FolderDoc) : List Nat :=
  (after.filter (fun g =>
    g.deletedAt != none &&
    (match before.find? (fun h => h.id == g.id) with
     | some h => h.deletedAt == none
     | none => false))).map FolderDoc.id

/-- Ids of the files that an operation taking `before` to `after` newly
soft-deleted. -/
def newlyDeletedFileIds (before after : List FileDoc) : List Nat :=
  (after.filter (fun g =>
    g.deletedAt != none &&
    (match before.find? (fun h => h.id == g.id) with
     | some h => h.deletedAt == none
     | none => false))).map FileDoc.id

/-- Ids of the user's folders matching the raw (un-slash-terminated)
path regex `^P` — the id set `deleteDescendants` keys its file cascade
on. -/
def rawFolderIds (s : Store) (uid : Nat) (P : String) : List Nat :=
  (s.folders.filter (rawQuery uid P)).map FolderDoc.id

/-- The store `deleteFolder` produces on success, as a function of the
found folder `F`: `F` saved with `deletedAt = t`, the `deleteDescendants`
cascade, and the `delete` audit entry (definitionally equal to the value
computed inside `deleteFolder`). -/
def deleteFolderResultStore (s : Store) (uid fid : Nat) (F : FolderDoc) (t : Nat) :
    Store :=
  let folders1 := (saveFolder s.folders { F with deletedAt := some t }).map
    (delMark uid F.path t)
  let ids := (folders1.filter (rawQuery uid F.path)).map FolderDoc.id
  { s with
    folders := folders1,
    files := s.files.map (delFileMark uid ids t),
    audit := s.audit ++ [⟨uid, .delete, some fid⟩] }

/-- Delete, then restore, then delete the same folder again, and compare
the two deletes' sets of newly soft-deleted folder and file ids.  False
when any step errors. -/
def restoreRedeleteAgrees (s : Store) (uid fid t t' : Nat) : Bool :=
  match deleteFolder s uid fid t with
  | .error _ => false
  | .ok s2 =>
    match restoreFolder s2 uid fid with
    | .error _ => false
    | .ok s3 =>
      match deleteFolder s3 uid fid t' with
      | .error _ => false
      | .ok s4 =>
        (newlyDeletedFolderIds s.folders s2.folders ==
          newlyDeletedFolderIds s3.folders s4.folders) &&
        (newlyDeletedFileIds s.files s2.files ==
          newlyDeletedFileIds s3.files s4.files)

/-! ## Concrete input states used by the closed theorems -/

/-- C1 input: user 1 owns sibling root folders `/A` and `/AB`, and one
file inside `/AB`.  `/AB` is not in `/A`'s subtree. -/
def c1Store : Store :=
  { users := [⟨1, 0, 1000⟩],
    folders := [⟨1, 1, none, "A", "/A", none⟩, ⟨2, 1, none, "AB", "/AB", none⟩],
    files := [⟨10, 1, some 2, "f", 1, "text/plain", "k10", 1, none⟩],
    shares := [], audit := [], jobs := [] }

/-- C2 input: user 1 with one finalized file of size 40. -/
def c2Store : Store :=
  { users := [⟨1, 0, 1000⟩],
    folders := [],
    files := [⟨10, 1, none, "f", 40, "text/plain", "k10", 1, none⟩],
    shares := [], audit := [], jobs := [] }

/-- The upload job for `c2Store`'s file. -/
def c2job : UploadJob :=
  ⟨10, 1, "f", "k10", "text/plain", 40⟩

/-- C5 input: user 1 owns root folders `A.B` (path `/A.B`) and `AXB`
(path `/AXB`), and a folder named `A.B` inside `AXB` (path `/AXB/A.B`),
which is unrelated to the root `A.B`. -/
def c5Store : Store :=
  { users := [⟨1, 0, 1000⟩],
    folders := [⟨1, 1, none, "A.B", "/A.B", none⟩,
                ⟨2, 1, none, "AXB", "/AXB", none⟩,
                ⟨3, 1, some 2, "A.B", "/AXB/A.B", none⟩],
    files := [], shares := [], audit := [], jobs := [] }

/-- C6 input: user 1 owns root folder `/A`; user 2 owns their own root
folder `/A` with a child `/A/x` (paths are per-user namespaces). -/
def c6Store : Store :=
  { users := [⟨1, 0, 1000⟩, ⟨2, 0, 1000⟩],
    folders := [⟨1, 1, none, "A", "/A", none⟩,
                ⟨2, 2, none, "A", "/A", none⟩,
                ⟨3, 2, some 2, "x", "/A/x", none⟩],
    files := [], shares := [], audit := [], jobs := [] }

/-- C7 input: user 1 owns folder `/A` with subfolder `/A/S`. -/
def c7Store : Store :=
  { users := [⟨1, 0, 1000⟩],
    folders := [⟨1, 1, none, "A", "/A", none⟩, ⟨2, 1, some 1, "S", "/A/S", none⟩],
    files := [], shares := [], audit := [], jobs := [] }

/-- C8 input: user 1 owns a live file with id 10; user 2 has no share on
it; there is no file with id 99. -/
def c8Store : Store :=
  { users := [⟨1, 0, 1000⟩, ⟨2, 0, 1000⟩],
    folders := [],
    files := [⟨10, 1, none, "f", 1, "text/plain", "k10", 1, none⟩],
    shares := [], audit := [], jobs := [] }

/-- C10 input: user 1 with `storageUsed = 0`. -/
def c10Store : Store :=
  { users := [⟨1, 0, 1000⟩],
    folders := [], files := [], shares := [], audit := [], jobs := [] }

/-- `c7Store` after user 1 soft-deletes the subfolder `/A/S` alone at
time 1 (the provenance is proved in the C7 counterexample theorem). -/
def c7s1 : Store :=
  { users := [⟨1, 0, 1000⟩],
    folders := [⟨1, 1, none, "A", "/A", none⟩, ⟨2, 1, some 1, "S", "/A/S", some 1⟩],
    files := [], shares := [],
    audit := [⟨1, .delete, some 2⟩], jobs := [] }

/-! ## Theorems -/

/-- C1: FALSIFIED BY THE CODE (claim is right, code is wrong).  Deleting
folder `/A` (id 1) for its owner leaves the sibling folder `/AB`
untouched (the subfolder cascade correctly matches `^/A/`), but the file
cascade collects folder ids with the raw regex `^/A`, which also matches
the sibling `/AB`; the file inside `/AB` — outside `/A`'s subtree —
therefore gets `deletedAt` set, contradicting both the claim and the
code's own comment "Delete all files in this folder and subfolders". -/
theorem deleteFolder_deletes_file_outside_subtree :
    (deleteFolder c1Store 1 1 5).map (fun s =>
      (s.folders.map FolderDoc.deletedAt, s.files.map FileDoc.deletedAt)) =
      .ok ([some 5, none], [some 5]) := rfl

/-- C10: FALSIFIED BY THE CODE (claim is right, code is wrong).
`QuotaService.updateUsage` applies a bare `$inc` with no floor; applied
to a user with `storageUsed = 0` and delta `-5`, the stored value
becomes `-5 < 0`, contradicting the claim and the schema's own
`min: 0` declaration (which `findByIdAndUpdate` bypasses). -/
theorem updateUsage_stores_negative :
    (updateUsage c10Store 1 (-5)).users.map UserDoc.storageUsed = [-5] ∧
    (-5 : Int) < 0 := ⟨rfl, by decide⟩

/-- C5: FALSIFIED BY THE CODE (claim is right, code is wrong).  Renaming
the root folder `A.B` to `C` builds the unescaped regex `^/A.B/`, whose
`.` also matches the unrelated folder `/AXB/A.B`; JS
`"/AXB/A.B".replace("/A.B", "/C")` then rewrites the embedded
occurrence, leaving that folder with path `/AXB/C` although
`computePath` of its name `A.B` under its parent `/AXB` is `/AXB/A.B` —
the path invariant is broken for a folder outside the renamed subtree. -/
theorem updateFolder_breaks_path_invariant_on_dot_name :
    (updateFolder c5Store 1 1 "C").map (fun s => s.folders.map FolderDoc.path) =
      .ok ["/C", "/AXB", "/AXB/C"] ∧
    computePath "A.B" (some "/AXB") = "/AXB/A.B" := ⟨rfl, rfl⟩

/-- C6: FALSIFIED BY THE CODE (claim is right, code is wrong).
`updateDescendantPaths` queries `{path: ^oldPath/, deletedAt: null}`
with no `userId` filter (unlike `deleteDescendants` and
`restoreDescendants`), so when user 1 renames their folder `/A` to `C`,
user 2's folder `/A/x` is rewritten to `/C/x`. -/
theorem updateFolder_rewrites_foreign_users_folder :
    (updateFolder c6Store 1 1 "C").map (fun s =>
      (s.folders.filter (fun f => f.userId == 2)).map FolderDoc.path) =
      .ok ["/A", "/C/x"] := rfl

/-- C2 counterexample: processing the same upload job twice is NOT a
no-op the second time — each delivery applies the `$inc`, so the
owner's `storageUsed` ends at 80 after two deliveries of a size-40 job
versus 40 after one, refuting idempotence at this concrete input. -/
theorem uploadProcess_twice_not_noop_cx :
    ((uploadProcess c2Store c2job).bind (fun s1 => uploadProcess s1 c2job)).map
        (fun s => s.users.map UserDoc.storageUsed) = .ok [80] ∧
    (uploadProcess c2Store c2job).map
        (fun s => s.users.map UserDoc.storageUsed) = .ok [40] := ⟨rfl, rfl⟩

/-- C8 counterexample: for user 2, requesting a download URL for the
existing, unshared file 10 fails with the distinct 403 "Access denied",
while a missing file id 99 fails with 404 "File not found" — access
denial is NOT presented as `NotFound`, so existence is distinguishable. -/
theorem getDownloadUrl_distinct_forbidden_cx :
    getDownloadUrl c8Store 2 10 0 = .error ⟨403, "Access denied"⟩ ∧
    getDownloadUrl c8Store 2 99 0 = .error ⟨404, "File not found"⟩ := ⟨rfl, rfl⟩

/-- C7 counterexample: with subfolder `/A/S` already deleted on its own
(first conjunct: that state arises from the code's own single-folder
delete), deleting `/A` affects only id 1; but restore clears `deletedAt`
on ALL path-descendants including the previously deleted `/A/S`, so the
re-delete affects ids 1 and 2 — the two affected sets differ. -/
theorem restore_redelete_affected_ids_differ_cx :
    deleteFolder c7Store 1 2 1 = .ok c7s1 ∧
    restoreRedeleteAgrees c7s1 1 1 2 3 = false := ⟨rfl, rfl⟩

/-- Reading a queue's buffer back after writing it returns exactly the
written value. -/
theorem getInMemory_setInMemory {α : Type} (m : List (String × List α))
    (queue : String) (v : List α) :
    getInMemory (setInMemory m queue v) queue = v := by
  unfold setInMemory
  cases hfind : m.find? (fun p => p.1 == queue) with
  | some p0 =>
    simp only [Option.isSome_some, if_true]
    unfold getInMemory
    rw [List.find?_map]
    have hpq : ((fun p : String × List α => p.1 == queue) ∘
        (fun p : String × List α => if p.1 == queue then (p.1, v) else p)) =
        (fun p : String × List α => p.1 == queue) := by
      funext p
      by_cases hp : p.1 = queue
      · simp [hp]
      · simp [hp]
    rw [hpq, hfind]
    have hp0 : p0.1 = queue := by
      have hs := List.find?_some hfind
      simpa using hs
    simp [hp0]
  | none =>
    simp only [Option.isSome_none, Bool.false_eq_true, if_false]
    unfold getInMemory
    rw [List.find?_append, hfind]
    simp

/-- C9 (CONFIRMED): when the broker is disabled by configuration or the
connection is down (`isEnabled = false`, the state both `connect` in
disabled mode and the connection error/close handlers produce),
`publishToQueue` completes — it is a total function, so the caller (in
particular `finalizeUpload`) never sees an error — appends the payload
to the in-memory buffer of exactly the requested queue, emits the
warning-level signal, leaves the durable broker untouched, and
`isAvailable` reports false. -/
theorem publishToQueue_degraded_buffers {α : Type} (st : QueueState α)
    (queue : String) (data : α) (hdown : st.isEnabled = false) :
    (publishToQueue st queue data).warned = true ∧
    getInMemory (publishToQueue st queue data).state.inMemory queue =
      getInMemory st.inMemory queue ++ [data] ∧
    (publishToQueue st queue data).state.broker = st.broker ∧
    isAvailable (publishToQueue st queue data).state = false := by
  have hbuf := getInMemory_setInMemory st.inMemory queue
    (getInMemory st.inMemory queue ++ [data])
  unfold publishToQueue isAvailable
  simp [hdown, hbuf]

/-- Witness for C9: a concrete disabled-broker state with a non-empty
prior buffer for the `file.upload` queue. -/
theorem publishToQueue_degraded_buffers_witness :
    (publishToQueue (⟨false, true, [], [("file.upload", [3])]⟩ : QueueState Nat)
        "file.upload" 7).warned = true ∧
    getInMemory (publishToQueue (⟨false, true, [], [("file.upload", [3])]⟩ : QueueState Nat)
        "file.upload" 7).state.inMemory "file.upload" =
      getInMemory ([("file.upload", [3])] : List (String × List Nat)) "file.upload" ++ [7] ∧
    (publishToQueue (⟨false, true, [], [("file.upload", [3])]⟩ : QueueState Nat)
        "file.upload" 7).state.broker = [] ∧
    isAvailable (publishToQueue (⟨false, true, [], [("file.upload", [3])]⟩ : QueueState Nat)
        "file.upload" 7).state = false :=
  publishToQueue_degraded_buffers ⟨false, true, [], [("file.upload", [3])]⟩
    "file.upload" 7 rfl

/-- C3 (CONFIRMED): an upload that passes the size cap but whose size
would push `storageUsed` above `storageQuota` is rejected with the 400
"Storage quota exceeded" error; since the quota check precedes every
write in the controller and a thrown error aborts the remaining steps,
no File row is created, no job is enqueued, and `storageUsed` is
untouched (the returned value is an error, not a mutated store). -/
theorem upload_quota_gate (s : Store) (userId newFileId : Nat)
    (f : MultipartFile) (name : Option String) (folderId : Option Nat)
    (storageKey : String) (user : UserDoc)
    (hmax : f.size ≤ MAX_FILE_SIZE)
    (huser : s.users.find? (fun u => u.id == userId) = some user)
    (hq : user.storageUsed + f.size > user.storageQuota) :
    upload s userId (some f) name folderId newFileId storageKey =
      .error ⟨400, "Storage quota exceeded"⟩ := by
  unfold upload
  simp only [huser]
  rw [if_neg (by omega : ¬ f.size > MAX_FILE_SIZE)]
  rw [if_pos hq]

/-- Witness for C3: the spec's concrete scenario — quota 1000, used 900,
uploading 150 bytes is rejected. -/
theorem upload_quota_gate_witness :
    upload ⟨[⟨1, 900, 1000⟩], [], [], [], [], []⟩ 1
        (some ⟨150, "f.txt", "text/plain"⟩) none none 10 "k" =
      .error ⟨400, "Storage quota exceeded"⟩ :=
  upload_quota_gate ⟨[⟨1, 900, 1000⟩], [], [], [], [], []⟩ 1 10
    ⟨150, "f.txt", "text/plain"⟩ none none "k" ⟨1, 900, 1000⟩
    (by decide) (by decide) (by decide)

/-- C4 (CONFIRMED): when the live, owned target parent's path equals the
moved folder's path or extends it with a `/` — exactly the
`isDescendant` predicate of the source — `moveFolder` fails with the
400 "Cannot move folder into itself or its descendants" (`InvalidMove`)
error; the error is thrown before any write, so nothing is mutated (an
error result carries no store). -/
theorem moveFolder_rejects_descendant_target (s : Store)
    (userId folderId tid : Nat) (folder target : FolderDoc)
    (hf : s.folders.find? (fun g =>
      g.id == folderId && g.userId == userId && g.deletedAt == none) = some folder)
    (ht : s.folders.find? (fun g =>
      g.id == tid && g.userId == userId && g.deletedAt == none) = some target)
    (hdesc : target.path = folder.path ∨
      jsStartsWith target.path (folder.path ++ "/") = true) :
    moveFolder s userId folderId (some tid) =
      .error ⟨400, "Cannot move folder into itself or its descendants"⟩ := by
  have hd : isDescendant target.path folder.path = true := by
    unfold isDescendant
    rcases hdesc with h | h
    · simp [h]
    · simp [h]
  unfold moveFolder
  simp only [hf, ht, hd, if_true]

/-- Witness for C4: moving `/A` into its own child `/A/B` fails with
`InvalidMove`. -/
theorem moveFolder_rejects_descendant_target_witness :
    moveFolder ⟨[⟨1, 0, 1000⟩],
        [⟨1, 1, none, "A", "/A", none⟩, ⟨2, 1, some 1, "B", "/A/B", none⟩],
        [], [], [], []⟩ 1 1 (some 2) =
      .error ⟨400, "Cannot move folder into itself or its descendants"⟩ :=
  moveFolder_rejects_descendant_target _ 1 1 2
    ⟨1, 1, none, "A", "/A", none⟩ ⟨2, 1, some 1, "B", "/A/B", none⟩
    (by decide) (by decide) (Or.inr (by decide))

/-- Looking a user up after the `$inc` update returns the user with the
delta added. -/
theorem find?_incStorageUsed (users : List UserDoc) (uid : Nat) (d : Int)
    (u : UserDoc) (hu : users.find? (fun x => x.id == uid) = some u) :
    (incStorageUsed users uid d).find? (fun x => x.id == uid) =
      some { u with storageUsed := u.storageUsed + d } := by
  unfold incStorageUsed
  rw [List.find?_map]
  have hpq : ((fun x : UserDoc => x.id == uid) ∘
      (fun x : UserDoc =>
        if x.id == uid then { x with storageUsed := x.storageUsed + d } else x)) =
      (fun x : UserDoc => x.id == uid) := by
    funext x
    by_cases hx : x.id = uid
    · simp [hx]
    · simp [hx]
  rw [hpq, hu]
  have huid : u.id = uid := by simpa using List.find?_some hu
  simp [huid]

/-- C2 as amended: the upload processor has no idempotency keying, so
delivering the same job (same `fileId`) twice applies the quota `$inc`
twice — the owner ends with `storageUsed` increased by `2 × job.size` —
and appends a second identical `upload` audit record; the second
delivery is an ordinary full re-run, not a no-op. -/
theorem uploadProcess_twice_double_counts (s : Store) (job : UploadJob)
    (fl : FileDoc) (u : UserDoc)
    (hf : s.files.find? (fun x => x.id == job.fileId) = some fl)
    (hu : s.users.find? (fun x => x.id == job.userId) = some u) :
    ((uploadProcess s job).bind (fun s1 => uploadProcess s1 job)).map
        (fun s2 => (s2.users.find? (fun x => x.id == job.userId), s2.audit)) =
      .ok (some { u with storageUsed := u.storageUsed + job.size + job.size },
           s.audit ++ [⟨job.userId, .upload, some job.fileId⟩,
                       ⟨job.userId, .upload, some job.fileId⟩]) := by
  have h1 : uploadProcess s job =
      .ok { s with users := incStorageUsed s.users job.userId job.size,
                   audit := s.audit ++ [⟨job.userId, .upload, some job.fileId⟩] } := by
    unfold uploadProcess
    rw [hf]
  have h2 : uploadProcess
      { s with users := incStorageUsed s.users job.userId job.size,
               audit := s.audit ++ [⟨job.userId, .upload, some job.fileId⟩] } job =
      .ok { s with users := incStorageUsed (incStorageUsed s.users job.userId job.size)
                     job.userId job.size,
                   audit := (s.audit ++ [⟨job.userId, .upload, some job.fileId⟩]) ++
                     [⟨job.userId, .upload, some job.fileId⟩] } := by
    unfold uploadProcess
    dsimp only
    rw [hf]
  rw [h1]
  simp only [Except.bind]
  rw [h2]
  simp only [Except.map]
  have hu1 := find?_incStorageUsed s.users job.userId job.size u hu
  have hu2 := find?_incStorageUsed (incStorageUsed s.users job.userId job.size)
    job.userId job.size _ hu1
  simp [hu2]

/-- Witness for C2's amended theorem, at the concrete `c2Store`/`c2job`
input: two deliveries leave the owner at `0 + 40 + 40` and two audit
records. -/
theorem uploadProcess_twice_double_counts_witness :
    ((uploadProcess c2Store c2job).bind (fun s1 => uploadProcess s1 c2job)).map
        (fun s2 => (s2.users.find? (fun x => x.id == c2job.userId), s2.audit)) =
      .ok (some { (⟨1, 0, 1000⟩ : UserDoc) with
                    storageUsed := (0 : Int) + c2job.size + c2job.size },
           c2Store.audit ++ [⟨c2job.userId, .upload, some c2job.fileId⟩,
                             ⟨c2job.userId, .upload, some c2job.fileId⟩]) :=
  uploadProcess_twice_double_counts c2Store c2job
    ⟨10, 1, none, "f", 40, "text/plain", "k10", 1, none⟩ ⟨1, 0, 1000⟩
    (by decide) (by decide)

/-- C8 as amended: `getDownloadUrl` answers 404 "File not found" when
the file is missing (or soft-deleted), but a caller who lacks both
ownership and a valid share on an existing live file receives the
DISTINCT 403 "Access denied" — so an unauthorized caller CAN distinguish
an existing file from a missing one. -/
theorem getDownloadUrl_forbidden_vs_notfound (s : Store)
    (userId fileId missingId now : Nat) (file : FileDoc)
    (hfile : s.files.find? (fun f => f.id == fileId) = some file)
    (hlive : file.deletedAt = none)
    (hacc : checkAccess s userId fileId now = false)
    (hmiss : s.files.find? (fun f => f.id == missingId) = none) :
    getDownloadUrl s userId fileId now = .error ⟨403, "Access denied"⟩ ∧
    getDownloadUrl s userId missingId now = .error ⟨404, "File not found"⟩ := by
  constructor
  · unfold getDownloadUrl
    simp [hfile, hlive, hacc]
  · unfold getDownloadUrl
    rw [hmiss]

/-- Witness for C8's amended theorem at the concrete `c8Store` input. -/
theorem getDownloadUrl_forbidden_vs_notfound_witness :
    getDownloadUrl c8Store 2 10 0 = .error ⟨403, "Access denied"⟩ ∧
    getDownloadUrl c8Store 2 99 0 = .error ⟨404, "File not found"⟩ :=
  getDownloadUrl_forbidden_vs_notfound c8Store 2 10 99 0
    ⟨10, 1, none, "f", 1, "text/plain", "k10", 1, none⟩
    (by decide) (by decide) (by decide) (by decide)

/-- A matching pattern is no longer than the subject. -/
theorem patMatchesAt_length {ps ss : List Char}
    (h : patMatchesAt ps ss = true) : ps.length ≤ ss.length := by
  induction ps generalizing ss with
  | nil => simp
  | cons pc ps ih =>
    cases ss with
    | nil => simp [patMatchesAt] at h
    | cons sc ss =>
      simp only [patMatchesAt, Bool.and_eq_true] at h
      simpa using ih h.2

/-- A path never matches the anchored pattern built from itself plus a
trailing slash: the pattern is one character too long. -/
theorem caretTest_slash_self (p : String) : caretTest (p ++ "/") p = false := by
  rw [Bool.eq_false_iff]
  intro h
  unfold caretTest at h
  rw [String.data_append] at h
  have hlen := patMatchesAt_length h
  simp at hlen

/-- Anchored matching of a longer pattern implies anchored matching of
its first part. -/
theorem patMatchesAt_append_left (p q s : List Char)
    (h : patMatchesAt (p ++ q) s = true) : patMatchesAt p s = true := by
  induction p generalizing s with
  | nil => simp [patMatchesAt]
  | cons pc ps ih =>
    cases s with
    | nil => simp [patMatchesAt] at h
    | cons sc ss =>
      simp only [List.cons_append, patMatchesAt, Bool.and_eq_true] at h ⊢
      exact ⟨h.1, ih ss h.2⟩

/-- A subtree match (`^P/`) implies a raw-scope match (`^P`). -/
theorem caretTest_weaken (P x : String)
    (h : caretTest (P ++ "/") x = true) : caretTest P x = true := by
  unfold caretTest at h ⊢
  rw [String.data_append] at h
  exact patMatchesAt_append_left _ _ _ h

/-- `find?` returns the element when it is a member, satisfies the
predicate, and is the only member doing so. -/
theorem find?_eq_some_of_mem_unique {α : Type} {p : α → Bool} {l : List α}
    {x : α} (hx : x ∈ l) (hpx : p x = true)
    (huniq : ∀ y ∈ l, p y = true → y = x) : l.find? p = some x := by
  induction l with
  | nil => simp at hx
  | cons a l ih =>
    by_cases ha : p a = true
    · rw [List.find?_cons_of_pos _ ha]
      exact congrArg some (huniq a (List.mem_cons_self a l) ha)
    · rw [List.find?_cons_of_neg _ ha]
      have hx' : x ∈ l := by
        cases hx with
        | head => exact absurd hpx ha
        | tail _ h => exact h
      exact ih hx' (fun y hy hpy => huniq y (List.mem_cons_of_mem a hy) hpy)

/-- In a folder list with no duplicate ids, looking a member's id up
finds exactly that member. -/
theorem find?_folder_id {l : List FolderDoc}
    (hnd : (l.map FolderDoc.id).Nodup) {x : FolderDoc} (hx : x ∈ l) :
    l.find? (fun y => y.id == x.id) = some x := by
  apply find?_eq_some_of_mem_unique hx (by simp)
  intro y hy hpy
  have hyx : y.id = x.id := by simpa using hpy
  exact List.inj_on_of_nodup_map hnd hy hx hyx

/-- In a file list with no duplicate ids, looking a member's id up
finds exactly that member. -/
theorem find?_file_id {l : List FileDoc}
    (hnd : (l.map FileDoc.id).Nodup) {x : FileDoc} (hx : x ∈ l) :
    l.find? (fun y => y.id == x.id) = some x := by
  apply find?_eq_some_of_mem_unique hx (by simp)
  intro y hy hpy
  have hyx : y.id = x.id := by simpa using hpy
  exact List.inj_on_of_nodup_map hnd hy hx hyx

/-- Filtering a mapped folder list and projecting the ids is unchanged
when the map preserves the filter's verdict and the id of every member. -/
theorem filter_map_ids_eq (h : FolderDoc → FolderDoc) (q : FolderDoc → Bool)
    (l : List FolderDoc)
    (hq : ∀ g ∈ l, q (h g) = q g) (hid : ∀ g ∈ l, (h g).id = g.id) :
    ((l.map h).filter q).map FolderDoc.id = (l.filter q).map FolderDoc.id := by
  induction l with
  | nil => rfl
  | cons a l ih =>
    have hqa := hq a (List.mem_cons_self a l)
    have hida := hid a (List.mem_cons_self a l)
    have ih' := ih (fun g hg => hq g (List.mem_cons_of_mem a hg))
      (fun g hg => hid g (List.mem_cons_of_mem a hg))
    simp only [List.map_cons, List.filter_cons, hqa]
    by_cases hcase : q a = true
    · simp [hcase, hida, ih']
    · simp [hcase, ih']

/-- Characterization of the newly-deleted folder ids of a `List.map`
step over an id-nodup list whose map preserves ids. -/
theorem newlyDeletedFolderIds_map (l : List FolderDoc) (D : FolderDoc → FolderDoc)
    (hnd : (l.map FolderDoc.id).Nodup) (hid : ∀ g ∈ l, (D g).id = g.id) :
    newlyDeletedFolderIds l (l.map D) =
      (l.filter (fun g => (D g).deletedAt != none && g.deletedAt == none)).map
        FolderDoc.id := by
  unfold newlyDeletedFolderIds
  rw [List.filter_map]
  have hfilter : l.filter ((fun g =>
      g.deletedAt != none &&
      (match l.find? (fun h => h.id == g.id) with
       | some h => h.deletedAt == none
       | none => false)) ∘ D) =
      l.filter (fun g => (D g).deletedAt != none && g.deletedAt == none) := by
    apply List.filter_congr
    intro g hg
    simp only [Function.comp]
    rw [hid g hg, find?_folder_id hnd hg]
  rw [hfilter, List.map_map]
  apply List.map_congr_left
  intro g hg
  exact hid g (List.mem_filter.mp hg).1

/-- `deleteFolder` on a findable live owned folder `F` produces exactly
`deleteFolderResultStore`. -/
theorem deleteFolder_eq_result (s : Store) (uid fid t : Nat) (F : FolderDoc)
    (hF : s.folders.find? (fun g =>
      g.id == fid && g.userId == uid && g.deletedAt == none) = some F) :
    deleteFolder s uid fid t = .ok (deleteFolderResultStore s uid fid F t) := by
  unfold deleteFolder deleteDescendants deleteFolderResultStore
  rw [hF]

/-- Characterization of the newly-deleted file ids of a `List.map`
step over an id-nodup list whose map preserves ids. -/
theorem newlyDeletedFileIds_map (l : List FileDoc) (D : FileDoc → FileDoc)
    (hnd : (l.map FileDoc.id).Nodup) (hid : ∀ g ∈ l, (D g).id = g.id) :
    newlyDeletedFileIds l (l.map D) =
      (l.filter (fun g => (D g).deletedAt != none && g.deletedAt == none)).map
        FileDoc.id := by
  unfold newlyDeletedFileIds
  rw [List.filter_map]
  have hfilter : l.filter ((fun g =>
      g.deletedAt != none &&
      (match l.find? (fun h => h.id == g.id) with
       | some h => h.deletedAt == none
       | none => false)) ∘ D) =
      l.filter (fun g => (D g).deletedAt != none && g.deletedAt == none) := by
    apply List.filter_congr
    intro g hg
    simp only [Function.comp]
    rw [hid g hg, find?_file_id hnd hg]
  rw [hfilter, List.map_map]
  apply List.map_congr_left
  intro g hg
  exact hid g (List.mem_filter.mp hg).1

end AioStorage

namespace AioStorage

/-- `delMark` leaves an already-deleted folder unchanged. -/
theorem delMark_skip_dead (uid : Nat) (P : String) (t : Nat) (f : FolderDoc)
    (hd : f.deletedAt ≠ none) : delMark uid P t f = f := by
  unfold delMark
  rw [if_neg]
  intro hcon
  simp only [Bool.and_eq_true, beq_iff_eq] at hcon
  exact hd hcon.2

/-- `delMark` soft-deletes a live folder of the user under the subtree. -/
theorem delMark_pos (uid : Nat) (P : String) (t : Nat) (f : FolderDoc)
    (hu : f.userId = uid) (hc : caretTest (P ++ "/") f.path = true)
    (hd : f.deletedAt = none) :
    delMark uid P t f = { f with deletedAt := some t } := by
  unfold delMark
  rw [if_pos (by simp [hu, hc, hd])]

/-- `delMark` leaves folders outside the user's subtree scope unchanged. -/
theorem delMark_neg (uid : Nat) (P : String) (t : Nat) (f : FolderDoc)
    (h : ¬(f.userId = uid ∧ caretTest (P ++ "/") f.path = true)) :
    delMark uid P t f = f := by
  unfold delMark
  rw [if_neg]
  intro hcon
  simp only [Bool.and_eq_true, beq_iff_eq] at hcon
  exact h ⟨hcon.1.1, hcon.1.2⟩

/-- `resMark` leaves folders outside the user's subtree scope unchanged. -/
theorem resMark_neg (uid : Nat) (P : String) (f : FolderDoc)
    (h : ¬(f.userId = uid ∧ caretTest (P ++ "/") f.path = true)) :
    resMark uid P f = f := by
  unfold resMark
  rw [if_neg]
  intro hcon
  simp only [Bool.and_eq_true, beq_iff_eq] at hcon
  exact h ⟨hcon.1, hcon.2⟩

/-- Restoring a folder the delete cascade just marked returns it to its
original (live) state. -/
theorem resMark_roundtrip (uid : Nat) (P : String) (t : Nat) (f : FolderDoc)
    (hu : f.userId = uid) (hc : caretTest (P ++ "/") f.path = true)
    (hd : f.deletedAt = none) :
    resMark uid P { f with deletedAt := some t } = f := by
  cases f with
  | mk i u pa n p d =>
    subst hu
    simp only at hc hd
    subst hd
    unfold resMark
    rw [if_pos (by simp [hc])]

/-- `replaceById` leaves documents with a different id unchanged. -/
theorem replaceById_ne (f g : FolderDoc) (h : g.id ≠ f.id) :
    replaceById f g = g := by
  unfold replaceById
  rw [if_neg]
  simp only [beq_iff_eq]
  exact h

/-- `replaceById` overwrites the document carrying the saved id. -/
theorem replaceById_eq (f g : FolderDoc) (h : g.id = f.id) :
    replaceById f g = f := by
  unfold replaceById
  rw [if_pos (by simp [h])]

/-- `delFileMark` soft-deletes a live file of the user in the id scope. -/
theorem delFileMark_pos (uid : Nat) (ids : List Nat) (t : Nat) (fl : FileDoc)
    (hu : fl.userId = uid) (hi : folderIdIn fl ids = true)
    (hd : fl.deletedAt = none) :
    delFileMark uid ids t fl = { fl with deletedAt := some t } := by
  unfold delFileMark
  rw [if_pos (by simp [hu, hi, hd])]

/-- `delFileMark` leaves files outside the user's id scope unchanged. -/
theorem delFileMark_neg (uid : Nat) (ids : List Nat) (t : Nat) (fl : FileDoc)
    (h : ¬(fl.userId = uid ∧ folderIdIn fl ids = true)) :
    delFileMark uid ids t fl = fl := by
  unfold delFileMark
  rw [if_neg]
  intro hcon
  simp only [Bool.and_eq_true, beq_iff_eq] at hcon
  exact h ⟨hcon.1.1, hcon.1.2⟩

/-- `resFileMark` leaves files outside the user's id scope unchanged. -/
theorem resFileMark_neg (uid : Nat) (ids : List Nat) (fl : FileDoc)
    (h : ¬(fl.userId = uid ∧ folderIdIn fl ids = true)) :
    resFileMark uid ids fl = fl := by
  unfold resFileMark
  rw [if_neg]
  intro hcon
  simp only [Bool.and_eq_true, beq_iff_eq] at hcon
  exact h ⟨hcon.1, hcon.2⟩

/-- Restoring a file the delete cascade just marked returns it to its
original (live) state. -/
theorem resFileMark_roundtrip (uid : Nat) (ids : List Nat) (t : Nat) (fl : FileDoc)
    (hu : fl.userId = uid) (hi : folderIdIn fl ids = true)
    (hd : fl.deletedAt = none) :
    resFileMark uid ids { fl with deletedAt := some t } = fl := by
  cases fl with
  | mk i u fo n sz mt k v d =>
    subst hu
    simp only at hi hd
    subst hd
    cases fo with
    | none => simp [folderIdIn] at hi
    | some x =>
      simp only [folderIdIn] at hi
      unfold resFileMark
      rw [if_pos (by simp only [folderIdIn]; rw [hi]; simp)]

end AioStorage

namespace AioStorage

/-- Restoring immediately after a delete undoes it exactly, provided the
whole raw-prefix scope of `F` was live before the delete: the only folder
with id `fid` is the live owned `F` (unique ids), every folder of the
user in `F`'s raw path scope and every file keyed under it is live, `F`'s
parent (if any) is live, distinct from `F`, and outside the cascade
scope, and no live same-name sibling exists — then the restore's
parent-check, conflict-rename, save and cascade reproduce the original
folder and file collections; only the delete's audit entry remains. -/
theorem restoreFolder_after_delete (s : Store) (uid fid t : Nat) (F : FolderDoc)
    (hnd : (s.folders.map FolderDoc.id).Nodup)
    (hF : s.folders.find? (fun g =>
      g.id == fid && g.userId == uid && g.deletedAt == none) = some F)
    (hlive : ∀ g ∈ s.folders, g.userId = uid → caretTest F.path g.path = true →
      g.deletedAt = none)
    (hparent : ∀ pid, F.parentId = some pid → pid ≠ fid ∧ ∃ p, p ∈ s.folders ∧
      p.id = pid ∧ p.deletedAt = none ∧
      ¬(p.userId = uid ∧ caretTest (F.path ++ "/") p.path = true))
    (hdup : ∀ g ∈ s.folders, g.userId = uid → g.parentId = F.parentId →
      g.name = F.name → g.id ≠ fid → g.deletedAt ≠ none)
    (hfiles : ∀ fl ∈ s.files, fl.userId = uid →
      folderIdIn fl (rawFolderIds s uid F.path) = true → fl.deletedAt = none) :
    restoreFolder (deleteFolderResultStore s uid fid F t) uid fid =
      .ok { s with audit := s.audit ++ [⟨uid, .delete, some fid⟩] } := by
  have hFmem : F ∈ s.folders := List.mem_of_find?_eq_some hF
  have hFp := List.find?_some hF
  simp only [Bool.and_eq_true, beq_iff_eq] at hFp
  obtain ⟨⟨hFid, hFuid⟩, hFdead⟩ := hFp
  have hgF : ∀ g ∈ s.folders, g.id = fid → g = F := by
    intro g hg hgid
    exact List.inj_on_of_nodup_map hnd hg hFmem (by rw [hgid, hFid])
  have hdel_id : ∀ x : FolderDoc, (delMark uid F.path t x).id = x.id := by
    intro x; unfold delMark; split <;> rfl
  have hrep_id : ∀ g : FolderDoc,
      (replaceById { F with deletedAt := some t } g).id = g.id := by
    intro g; unfold replaceById; split
    · next h =>
      simp only [beq_iff_eq] at h
      exact h.symm
    · rfl
  have hcompid : ∀ g : FolderDoc,
      (delMark uid F.path t (replaceById { F with deletedAt := some t } g)).id = g.id := by
    intro g
    rw [hdel_id, hrep_id]
  have hrep_ne : ∀ g : FolderDoc, g.id ≠ fid →
      replaceById { F with deletedAt := some t } g = g := by
    intro g hgid
    apply replaceById_ne
    intro h
    exact hgid (h.trans hFid)
  have hrepF_ne' : ∀ g : FolderDoc, g.id ≠ fid → replaceById F g = g := by
    intro g hgid
    apply replaceById_ne
    intro h
    exact hgid (h.trans hFid)
  have hDF : delMark uid F.path t (replaceById { F with deletedAt := some t } F) =
      { F with deletedAt := some t } := by
    rw [replaceById_eq { F with deletedAt := some t } F rfl]
    exact delMark_skip_dead uid F.path t _ (by simp)
  have htrash : List.find? (fun f => f.id == fid && f.userId == uid && f.deletedAt != none)
      (List.map (delMark uid F.path t)
        (saveFolder s.folders { F with deletedAt := some t })) =
      some { F with deletedAt := some t } := by
    unfold saveFolder
    rw [List.map_map]
    have hfind : List.find?
        ((fun f => f.id == fid && f.userId == uid && f.deletedAt != none) ∘
          (delMark uid F.path t ∘ replaceById { F with deletedAt := some t }))
        s.folders = some F := by
      apply find?_eq_some_of_mem_unique hFmem
      · show ((fun f : FolderDoc => f.id == fid && f.userId == uid && f.deletedAt != none)
          (delMark uid F.path t (replaceById { F with deletedAt := some t } F))) = true
        rw [hDF]
        simp [hFid, hFuid]
      · intro y hy hpy
        simp only [Function.comp, Bool.and_eq_true, beq_iff_eq] at hpy
        obtain ⟨⟨hy1, _⟩, _⟩ := hpy
        have hyid : y.id = fid := by
          rw [← hcompid y]
          exact hy1
        exact hgF y hy hyid
    rw [List.find?_map, hfind]
    show some (delMark uid F.path t (replaceById { F with deletedAt := some t } F)) = _
    rw [hDF]
  have hdupfind : List.find? (fun f =>
      f.userId == uid && f.parentId == F.parentId && f.name == F.name &&
      f.id != fid && f.deletedAt == none)
      (List.map (delMark uid F.path t)
        (saveFolder s.folders { F with deletedAt := some t })) = none := by
    unfold saveFolder
    rw [List.map_map]
    apply List.find?_eq_none.mpr
    intro x hx
    obtain ⟨g, hg, rfl⟩ := List.mem_map.mp hx
    intro hpx
    simp only [Function.comp, Bool.and_eq_true, beq_iff_eq, bne_iff_ne] at hpx
    obtain ⟨⟨⟨⟨hxu, hxp⟩, hxn⟩, hxid⟩, hxd⟩ := hpx
    by_cases hgid : g.id = fid
    · rw [hgF g hg hgid, hDF] at hxid
      exact hxid hFid
    · rw [hrep_ne g hgid] at hxu hxp hxn hxd
      by_cases hcond : g.userId = uid ∧ caretTest (F.path ++ "/") g.path = true
      · rw [delMark_pos uid F.path t g hcond.1 hcond.2
          (hlive g hg hcond.1 (caretTest_weaken _ _ hcond.2))] at hxd
        simp at hxd
      · rw [delMark_neg uid F.path t g hcond] at hxu hxp hxn hxd
        exact hdup g hg hxu hxp hxn hgid hxd
  have hpc : restoreParentCheck
      (List.map (delMark uid F.path t)
        (saveFolder s.folders { F with deletedAt := some t }))
      { F with deletedAt := some t } = { F with deletedAt := some t } := by
    unfold restoreParentCheck
    dsimp only
    cases hpid : F.parentId with
    | none => rfl
    | some pid =>
      obtain ⟨hpidne, p0, hp0mem, hp0id, hp0live, hp0not⟩ := hparent pid hpid
      have hp0ne : p0.id ≠ fid := by rw [hp0id]; exact hpidne
      have hDp0 : delMark uid F.path t (replaceById { F with deletedAt := some t } p0) = p0 := by
        rw [hrep_ne p0 hp0ne]
        exact delMark_neg uid F.path t p0 hp0not
      have hpfind : List.find? (fun f => f.id == pid && f.deletedAt == none)
          (List.map (delMark uid F.path t)
            (saveFolder s.folders { F with deletedAt := some t })) = some p0 := by
        unfold saveFolder
        rw [List.map_map]
        have hf2 : List.find? ((fun f : FolderDoc => f.id == pid && f.deletedAt == none) ∘
            (delMark uid F.path t ∘ replaceById { F with deletedAt := some t }))
            s.folders = some p0 := by
          apply find?_eq_some_of_mem_unique hp0mem
          · show ((fun f : FolderDoc => f.id == pid && f.deletedAt == none)
              (delMark uid F.path t (replaceById { F with deletedAt := some t } p0))) = true
            rw [hDp0]
            simp [hp0id, hp0live]
          · intro y hy hpy
            simp only [Function.comp, Bool.and_eq_true, beq_iff_eq] at hpy
            have hyid : y.id = pid := by
              rw [← hcompid y]
              exact hpy.1
            exact List.inj_on_of_nodup_map hnd hy hp0mem (by rw [hyid, hp0id])
        rw [List.find?_map, hf2]
        show some (delMark uid F.path t (replaceById { F with deletedAt := some t } p0)) = _
        rw [hDp0]
      dsimp only
      rw [← hpid]
      rw [hpfind]
  have hcr : restoreConflictRename
      (List.map (delMark uid F.path t)
        (saveFolder s.folders { F with deletedAt := some t }))
      uid fid { F with deletedAt := some t } = { F with deletedAt := some t } := by
    unfold restoreConflictRename
    dsimp only
    rw [hdupfind]
  have hids1 : ((List.map (delMark uid F.path t)
      (saveFolder s.folders { F with deletedAt := some t })).filter
        (rawQuery uid F.path)).map FolderDoc.id = rawFolderIds s uid F.path := by
    unfold saveFolder rawFolderIds
    rw [List.map_map]
    apply filter_map_ids_eq
    · intro g hg
      by_cases hgid : g.id = fid
      · rw [hgF g hg hgid]
        show rawQuery uid F.path
          (delMark uid F.path t (replaceById { F with deletedAt := some t } F)) =
          rawQuery uid F.path F
        rw [hDF]
        rfl
      · show rawQuery uid F.path
          (delMark uid F.path t (replaceById { F with deletedAt := some t } g)) =
          rawQuery uid F.path g
        rw [hrep_ne g hgid]
        unfold delMark rawQuery
        split <;> rfl
    · intro g hg
      exact hcompid g
  have hids2 : (List.filter (liveRawQuery uid F.path) s.folders).map FolderDoc.id =
      rawFolderIds s uid F.path := by
    unfold rawFolderIds
    congr 1
    apply List.filter_congr
    intro g hg
    unfold liveRawQuery rawQuery
    by_cases hraw : (g.userId == uid && caretTest F.path g.path) = true
    · have hh := hraw
      simp only [Bool.and_eq_true, beq_iff_eq] at hh
      have hgl := hlive g hg hh.1 hh.2
      rw [hraw, hgl]
      simp
    · have hf : (g.userId == uid && caretTest F.path g.path) = false := by
        rw [Bool.eq_false_iff]; exact hraw
      rw [hf]
      simp
  have hfoldersEq : List.map (resMark uid F.path)
      (saveFolder (List.map (delMark uid F.path t)
        (saveFolder s.folders { F with deletedAt := some t })) F) = s.folders := by
    unfold saveFolder
    rw [List.map_map, List.map_map, List.map_map]
    trans List.map id s.folders
    · apply List.map_congr_left
      intro g hg
      show resMark uid F.path (replaceById F
        (delMark uid F.path t (replaceById { F with deletedAt := some t } g))) = id g
      by_cases hgid : g.id = fid
      · rw [hgF g hg hgid, hDF,
          replaceById_eq F { F with deletedAt := some t } rfl]
        exact resMark_neg uid F.path F
          (fun hcon => by rw [caretTest_slash_self] at hcon; exact absurd hcon.2 (by simp))
      · rw [hrep_ne g hgid]
        by_cases hsub : g.userId = uid ∧ caretTest (F.path ++ "/") g.path = true
        · have hgl : g.deletedAt = none :=
            hlive g hg hsub.1 (caretTest_weaken _ _ hsub.2)
          rw [delMark_pos uid F.path t g hsub.1 hsub.2 hgl,
            hrepF_ne' { g with deletedAt := some t } hgid]
          exact resMark_roundtrip uid F.path t g hsub.1 hsub.2 hgl
        · rw [delMark_neg uid F.path t g hsub, hrepF_ne' g hgid]
          exact resMark_neg uid F.path g hsub
    · exact List.map_id s.folders
  have hfilesEq : List.map (resFileMark uid (rawFolderIds s uid F.path))
      (List.map (delFileMark uid (rawFolderIds s uid F.path) t) s.files) = s.files := by
    rw [List.map_map]
    trans List.map id s.files
    · apply List.map_congr_left
      intro fl hfl
      show resFileMark uid (rawFolderIds s uid F.path)
        (delFileMark uid (rawFolderIds s uid F.path) t fl) = id fl
      by_cases hin : fl.userId = uid ∧ folderIdIn fl (rawFolderIds s uid F.path) = true
      · have hfld : fl.deletedAt = none := hfiles fl hfl hin.1 hin.2
        rw [delFileMark_pos uid _ t fl hin.1 hin.2 hfld]
        exact resFileMark_roundtrip uid _ t fl hin.1 hin.2 hfld
      · rw [delFileMark_neg uid _ t fl hin]
        exact resFileMark_neg uid _ fl hin
    · exact List.map_id s.files
  unfold restoreFolder deleteFolderResultStore
  dsimp only
  rw [htrash]
  dsimp only
  rw [hids1, hpc, hcr]
  rw [show ((⟨F.id, F.userId, F.parentId, F.name, F.path, none⟩ : FolderDoc) = F) from
    by rw [← hFdead]]
  unfold restoreDescendants
  dsimp only
  rw [hfoldersEq, hids2, hfilesEq]

end AioStorage

namespace AioStorage

/-- `delFileMark` leaves an already-deleted file unchanged. -/
theorem delFileMark_skip_dead (uid : Nat) (ids : List Nat) (t : Nat) (fl : FileDoc)
    (hd : fl.deletedAt ≠ none) : delFileMark uid ids t fl = fl := by
  unfold delFileMark
  rw [if_neg]
  intro hcon
  simp only [Bool.and_eq_true, beq_iff_eq] at hcon
  exact hd hcon.2

/-- C7 as amended: delete-restore-delete reproduces the same newly
soft-deleted folder and file id sets as the original delete PROVIDED
every folder and file in `F`'s raw-prefix scope was live immediately
before the original delete (plus store well-formedness: unique ids, a
live parent outside the scope, no live same-name sibling); without the
all-live proviso the restore resurrects previously deleted items and the
second delete affects extra ids (see the counterexample). -/
theorem restore_redelete_agrees_when_scope_live (s : Store) (uid fid t t' : Nat)
    (F : FolderDoc)
    (hnd : (s.folders.map FolderDoc.id).Nodup)
    (hndf : (s.files.map FileDoc.id).Nodup)
    (hF : s.folders.find? (fun g =>
      g.id == fid && g.userId == uid && g.deletedAt == none) = some F)
    (hlive : ∀ g ∈ s.folders, g.userId = uid → caretTest F.path g.path = true →
      g.deletedAt = none)
    (hparent : ∀ pid, F.parentId = some pid → pid ≠ fid ∧ ∃ p, p ∈ s.folders ∧
      p.id = pid ∧ p.deletedAt = none ∧
      ¬(p.userId = uid ∧ caretTest (F.path ++ "/") p.path = true))
    (hdup : ∀ g ∈ s.folders, g.userId = uid → g.parentId = F.parentId →
      g.name = F.name → g.id ≠ fid → g.deletedAt ≠ none)
    (hfiles : ∀ fl ∈ s.files, fl.userId = uid →
      folderIdIn fl (rawFolderIds s uid F.path) = true → fl.deletedAt = none) :
    restoreRedeleteAgrees s uid fid t t' = true := by
  have hFmem : F ∈ s.folders := List.mem_of_find?_eq_some hF
  have hFp := List.find?_some hF
  simp only [Bool.and_eq_true, beq_iff_eq] at hFp
  obtain ⟨⟨hFid, hFuid⟩, hFdead⟩ := hFp
  have hgF : ∀ g ∈ s.folders, g.id = fid → g = F := by
    intro g hg hgid
    exact List.inj_on_of_nodup_map hnd hg hFmem (by rw [hgid, hFid])
  have hcompid : ∀ (tt : Nat) (g : FolderDoc),
      (delMark uid F.path tt (replaceById { F with deletedAt := some tt } g)).id = g.id := by
    intro tt g
    have h1 : ∀ x : FolderDoc, (delMark uid F.path tt x).id = x.id := by
      intro x; unfold delMark; split <;> rfl
    rw [h1]
    unfold replaceById; split
    · next h =>
      simp only [beq_iff_eq] at h
      exact h.symm
    · rfl
  have hDFt : ∀ tt : Nat,
      delMark uid F.path tt (replaceById { F with deletedAt := some tt } F) =
      { F with deletedAt := some tt } := by
    intro tt
    rw [replaceById_eq { F with deletedAt := some tt } F rfl]
    exact delMark_skip_dead uid F.path tt _ (by simp)
  have hrep_ne : ∀ (tt : Nat) (g : FolderDoc), g.id ≠ fid →
      replaceById { F with deletedAt := some tt } g = g := by
    intro tt g hgid
    apply replaceById_ne
    intro h
    exact hgid (h.trans hFid)
  have hids1 : ∀ tt : Nat, ((List.map (delMark uid F.path tt)
      (saveFolder s.folders { F with deletedAt := some tt })).filter
        (rawQuery uid F.path)).map FolderDoc.id = rawFolderIds s uid F.path := by
    intro tt
    unfold saveFolder rawFolderIds
    rw [List.map_map]
    apply filter_map_ids_eq
    · intro g hg
      by_cases hgid : g.id = fid
      · rw [hgF g hg hgid]
        show rawQuery uid F.path
          (delMark uid F.path tt (replaceById { F with deletedAt := some tt } F)) =
          rawQuery uid F.path F
        rw [hDFt tt]
        rfl
      · show rawQuery uid F.path
          (delMark uid F.path tt (replaceById { F with deletedAt := some tt } g)) =
          rawQuery uid F.path g
        rw [hrep_ne tt g hgid]
        unfold delMark rawQuery
        split <;> rfl
    · intro g hg
      exact hcompid tt g
  have hfoldfilter : s.folders.filter (fun g =>
      ((delMark uid F.path t ∘ replaceById { F with deletedAt := some t }) g).deletedAt
        != none && g.deletedAt == none) = s.folders.filter (fun g =>
      ((delMark uid F.path t' ∘ replaceById { F with deletedAt := some t' }) g).deletedAt
        != none && g.deletedAt == none) := by
    apply List.filter_congr
    intro g hg
    simp only [Function.comp]
    by_cases hgid : g.id = fid
    · rw [hgF g hg hgid, hDFt t, hDFt t']
      rfl
    · rw [hrep_ne t g hgid, hrep_ne t' g hgid]
      by_cases hsub : g.userId = uid ∧ caretTest (F.path ++ "/") g.path = true
      · by_cases hgl : g.deletedAt = none
        · rw [delMark_pos uid F.path t g hsub.1 hsub.2 hgl,
            delMark_pos uid F.path t' g hsub.1 hsub.2 hgl]
          rfl
        · rw [delMark_skip_dead uid F.path t g hgl,
            delMark_skip_dead uid F.path t' g hgl]
      · rw [delMark_neg uid F.path t g hsub, delMark_neg uid F.path t' g hsub]
  have hfilefilter : s.files.filter (fun fl =>
      (delFileMark uid (rawFolderIds s uid F.path) t fl).deletedAt != none &&
        fl.deletedAt == none) = s.files.filter (fun fl =>
      (delFileMark uid (rawFolderIds s uid F.path) t' fl).deletedAt != none &&
        fl.deletedAt == none) := by
    apply List.filter_congr
    intro fl hfl
    by_cases hin : fl.userId = uid ∧ folderIdIn fl (rawFolderIds s uid F.path) = true
    · by_cases hfld : fl.deletedAt = none
      · rw [delFileMark_pos uid _ t fl hin.1 hin.2 hfld,
          delFileMark_pos uid _ t' fl hin.1 hin.2 hfld]
        rfl
      · rw [delFileMark_skip_dead uid _ t fl hfld,
          delFileMark_skip_dead uid _ t' fl hfld]
    · rw [delFileMark_neg uid _ t fl hin, delFileMark_neg uid _ t' fl hin]
  unfold restoreRedeleteAgrees
  rw [deleteFolder_eq_result s uid fid t F hF]
  dsimp only
  rw [restoreFolder_after_delete s uid fid t F hnd hF hlive hparent hdup hfiles]
  dsimp only
  rw [deleteFolder_eq_result
    { s with audit := s.audit ++ [⟨uid, .delete, some fid⟩] } uid fid t' F hF]
  dsimp only
  unfold deleteFolderResultStore
  dsimp only
  rw [hids1 t, hids1 t']
  unfold saveFolder
  simp only [List.map_map]
  rw [newlyDeletedFolderIds_map s.folders
    (delMark uid F.path t ∘ replaceById { F with deletedAt := some t }) hnd
    (fun g _ => hcompid t g)]
  rw [newlyDeletedFolderIds_map s.folders
    (delMark uid F.path t' ∘ replaceById { F with deletedAt := some t' }) hnd
    (fun g _ => hcompid t' g)]
  rw [newlyDeletedFileIds_map s.files
    (delFileMark uid (rawFolderIds s uid F.path) t) hndf
    (fun fl _ => by unfold delFileMark; split <;> rfl)]
  rw [newlyDeletedFileIds_map s.files
    (delFileMark uid (rawFolderIds s uid F.path) t') hndf
    (fun fl _ => by unfold delFileMark; split <;> rfl)]
  rw [hfoldfilter, hfilefilter]
  simp

end AioStorage

namespace AioStorage

/-- Witness for C7's amended theorem: on `c7Store` — user 1's live `/A`
with live subfolder `/A/S` — delete at time 2, restore, and re-delete at
time 3 affect the same ids. -/
theorem restore_redelete_agrees_when_scope_live_witness :
    restoreRedeleteAgrees c7Store 1 1 2 3 = true :=
  restore_redelete_agrees_when_scope_live c7Store 1 1 2 3
    ⟨1, 1, none, "A", "/A", none⟩
    (by decide) (by decide) (by decide) (by decide)
    (fun pid h => Option.noConfusion h)
    (by decide) (by decide)

end AioStorage
